import Mathlib

/-!
Verification of the trend-classification and pattern-matching engine of the
Dubai Real Estate Pattern Recommender (`src/app.py`).

The embedding models the numeric values flowing through the pipeline as exact
rationals extended with the IEEE special values `inf`, `neginf` and `nan`
(`EFloat` below): pandas/numpy arithmetic on `float64` returns these special
values on division by zero instead of raising, and comparisons with `nan` are
false.  Rounding of finite values is not modelled; all claims are judged in
exact arithmetic.
-/

namespace Insights

/-- A numeric value as produced by pandas/numpy `float64` arithmetic:
either a finite (exact) rational, positive or negative infinity, or NaN. -/
inductive EFloat where
  | finite : ℚ → EFloat
  | inf : EFloat
  | neginf : EFloat
  | nan : EFloat
deriving DecidableEq, Repr

/-- IEEE-style strict less-than on `EFloat`: any comparison involving `nan`
is false; `neginf < finite _ < inf`. -/
def efLt : EFloat → EFloat → Bool
  | EFloat.nan, _ => false
  | _, EFloat.nan => false
  | EFloat.neginf, EFloat.neginf => false
  | EFloat.neginf, _ => true
  | _, EFloat.neginf => false
  | EFloat.inf, _ => false
  | EFloat.finite _, EFloat.inf => true
  | EFloat.finite a, EFloat.finite b => decide (a < b)

/-- `classify_change` from `src/app.py` lines 57-63:
`val > 5 → "Up"`, `val < -5 → "Down"`, otherwise `"Flat"`. -/
def classify_change (val : EFloat) : String :=
  if efLt (EFloat.finite 5) val then "Up"
  else if efLt val (EFloat.finite (-5)) then "Down"
  else "Flat"

/-- `classify_offplan` from `src/app.py` lines 65-71:
`pct > 0.5 → "High"`, `pct > 0.2 → "Medium"`, otherwise `"Low"`. -/
def classify_offplan (pct : EFloat) : String :=
  if efLt (EFloat.finite (1/2)) pct then "High"
  else if efLt (EFloat.finite (1/5)) pct then "Medium"
  else "Low"

/-- One transaction record as seen by the engine after filtering
(`df_filtered`); only the columns the engine reads are modelled.
`quarter` is the calendar quarter of `instance_date`, encoded as a natural
number (calendar quarters are order-isomorphic to ℕ); `none` models an
unparsable date (`NaT` after `pd.to_datetime(..., errors="coerce")`).
`price` is `actual_worth` and `regType` is `reg_type_en`.  Every record
carries a non-null `transaction_id`, so the `"count"` aggregation counts
records. -/
structure Record where
  quarter : Option ℕ
  price : ℚ
  regType : String
deriving DecidableEq, Repr

/-- A quarterly row as produced by `.agg` before `.dropna()`
(`src/app.py` lines 112-115): the mean price is `none` (NaN) exactly when
the quarter holds no records. -/
structure RawBucket where
  quarter : ℕ
  avg_price : Option ℚ
  volume : ℕ
deriving DecidableEq, Repr

/-- A row of `grouped` after `.dropna()`: one calendar quarter with its mean
price and transaction count. -/
structure Bucket where
  quarter : ℕ
  avg_price : ℚ
  volume : ℕ
deriving DecidableEq, Repr

/-- The records of `recs` falling in calendar quarter `q`. -/
def recordsIn (recs : List Record) (q : ℕ) : List Record :=
  recs.filter (fun r => r.quarter == some q)

/-- All quarter indices present among the records (parsable dates only). -/
def presentQuarters (recs : List Record) : List ℕ :=
  recs.filterMap (fun r => r.quarter)

/-- The full run of calendar quarters from the earliest to the latest present
quarter: `pd.Grouper(freq="Q")` emits every quarter in this range, the empty
ones included. -/
def quarterRange (recs : List Record) : List ℕ :=
  match presentQuarters recs with
  | [] => []
  | q :: qs =>
    let lo := qs.foldl Nat.min q
    let hi := qs.foldl Nat.max q
    List.range' lo (hi + 1 - lo)

/-- The `.agg` step of `src/app.py` lines 112-115 before `.dropna()`: for
each quarter in the grouper's range, the mean of `actual_worth` (`none`,
i.e. NaN, for an empty quarter) and the count of `transaction_id`. -/
def aggregate (recs : List Record) : List RawBucket :=
  (quarterRange recs).map fun q =>
    let rs := recordsIn recs q
    { quarter := q
      avg_price := if rs.length = 0 then none
        else some ((rs.map (fun r => r.price)).sum / (rs.length : ℚ))
      volume := rs.length }

/-- `grouped` (`src/app.py` lines 112-115): the aggregation after
`.dropna()`, which removes the rows whose mean price is NaN. -/
def grouped (recs : List Record) : List Bucket :=
  (aggregate recs).filterMap fun b =>
    match b.avg_price with
    | none => none
    | some p => some { quarter := b.quarter, avg_price := p, volume := b.volume }

/-- The percentage-change expression `((a - b) / b) * 100` of
`src/app.py` lines 120-125 under `float64` semantics: when the reference
value `b` is zero the division yields `inf`, `-inf` or `nan` instead of
raising an error. -/
def pctDelta (a b : ℚ) : EFloat :=
  if b = 0 then
    if 0 < a then EFloat.inf
    else if a < 0 then EFloat.neginf
    else EFloat.nan
  else EFloat.finite (((a - b) / b) * 100)

/-- `grouped.iloc[-k]` for `k ≥ 1`: the `k`-th bucket from the end.  Total
with a default value, mirroring that the Python accesses are guarded by
length checks. -/
def ilocBack (g : List Bucket) (k : ℕ) : Bucket :=
  (g.get? (g.length - k)).getD { quarter := 0, avg_price := 0, volume := 0 }

/-- `offplan_pct` (`src/app.py` lines 127-129): the latest quarter is
re-filtered from `df_filtered` by calendar period and the mean of the
boolean series `reg_type_en == "Off-Plan Properties"` is taken; the mean of
an empty series is NaN. -/
def offplanPct (recs : List Record) (q : ℕ) : EFloat :=
  let rs := recordsIn recs q
  if rs.length = 0 then EFloat.nan
  else EFloat.finite
    ((rs.countP (fun r => r.regType == "Off-Plan Properties") : ℚ) / (rs.length : ℚ))

/-- The five numeric signals of `src/app.py` lines 118-129. -/
structure Signals where
  qoq_price : EFloat
  qoq_volume : EFloat
  yoy_price : EFloat
  yoy_volume : EFloat
  offplan_pct : EFloat
deriving DecidableEq, Repr

/-- The signal computation of `src/app.py` lines 118-129, entered once at
least two quarterly buckets exist: `latest = grouped.iloc[-1]`,
`previous = grouped.iloc[-2]`, and
`year_ago = grouped.iloc[-5] if len(grouped) >= 5 else previous`. -/
def computeSignals (g : List Bucket) (recs : List Record) : Signals :=
  let latest := ilocBack g 1
  let previous := ilocBack g 2
  let year_ago := if 5 ≤ g.length then ilocBack g 5 else previous
  { qoq_price := pctDelta latest.avg_price previous.avg_price
    qoq_volume := pctDelta (latest.volume : ℚ) (previous.volume : ℚ)
    yoy_price := pctDelta latest.avg_price year_ago.avg_price
    yoy_volume := pctDelta (latest.volume : ℚ) (year_ago.volume : ℚ)
    offplan_pct := offplanPct recs latest.quarter }

/-- Outcome of one analysis run (`src/app.py` lines 108-182): stop with
"Not enough data to calculate trends" when fewer than 10 filtered records,
stop with "Not enough quarterly data" when fewer than 2 buckets, otherwise
produce the five signals. -/
inductive AnalysisResult where
  | insufficientData : AnalysisResult
  | insufficientQuarters : AnalysisResult
  | analyzed : Signals → AnalysisResult
deriving DecidableEq, Repr

/-- The main analysis flow of `src/app.py` lines 104-182. -/
def runAnalysis (recs : List Record) : AnalysisResult :=
  if recs.length < 10 then AnalysisResult.insufficientData
  else
    let g := grouped recs
    if 2 ≤ g.length then AnalysisResult.analyzed (computeSignals g recs)
    else AnalysisResult.insufficientQuarters

/-- A row of `PatternMatrix.csv`: five tag columns and four free-text
columns. -/
structure PatternRow where
  qoqPrice : String
  yoyPrice : String
  qoqVolume : String
  yoyVol : String
  offplanLevel : String
  insightInvestor : String
  recInvestor : String
  insightEndUser : String
  recEndUser : String
deriving DecidableEq, Repr

/-- Python `x.replace('\\n', '\n')` on the character list of `x`: each
occurrence of the two-character sequence backslash-`n` is replaced, left to
right, by a newline character. -/
def unescapeNL : List Char → List Char
  | [] => []
  | [c] => [c]
  | c1 :: c2 :: rest =>
    if c1 = '\\' ∧ c2 = 'n' then '\n' :: unescapeNL rest
    else c1 :: unescapeNL (c2 :: rest)

/-- `unescapeNL` lifted to `String`. -/
def unescapeStr (s : String) : String := String.mk (unescapeNL s.data)

/-- `load_pattern_matrix` (`src/app.py` lines 73-80) after the CSV read:
the four insight/recommendation columns have their literal `\n` escape
sequences turned into real newlines; the five tag columns are untouched. -/
def load_pattern_matrix (raw : List PatternRow) : List PatternRow :=
  raw.map fun r =>
    { r with
      insightInvestor := unescapeStr r.insightInvestor
      recInvestor := unescapeStr r.recInvestor
      insightEndUser := unescapeStr r.insightEndUser
      recEndUser := unescapeStr r.recEndUser }

/-- The five symbolic tags derived from the numeric signals
(`src/app.py` lines 84-90). -/
structure Tags where
  qoqPrice : String
  yoyPrice : String
  qoqVolume : String
  yoyVol : String
  offplanLevel : String
deriving DecidableEq, Repr

/-- The `pattern` dictionary of `src/app.py` lines 84-90. -/
def tagsOf (qoq_price yoy_price qoq_volume yoy_volume offplan_pct : EFloat) : Tags :=
  { qoqPrice := classify_change qoq_price
    yoyPrice := classify_change yoy_price
    qoqVolume := classify_change qoq_volume
    yoyVol := classify_change yoy_volume
    offplanLevel := classify_offplan offplan_pct }

/-- The boolean row mask of `src/app.py` lines 91-97: all five tag columns
equal the corresponding computed tag. -/
def rowMatches (r : PatternRow) (t : Tags) : Bool :=
  r.qoqPrice == t.qoqPrice && r.yoyPrice == t.yoyPrice &&
  r.qoqVolume == t.qoqVolume && r.yoyVol == t.yoyVol &&
  r.offplanLevel == t.offplanLevel

/-- `get_pattern_insight` (`src/app.py` lines 82-98): classify the five
numeric signals, keep the rows of the loaded pattern matrix whose five tag
columns all equal the computed tags, and return the first kept row
(`match.iloc[0]`), or `none` when the mask selects no row.  The matrix is a
parameter here; in the source it is the cached result of
`load_pattern_matrix()`. -/
def get_pattern_insight (matrix : List PatternRow)
    (qoq_price yoy_price qoq_volume yoy_volume offplan_pct : EFloat) :
    Option PatternRow :=
  let t := tagsOf qoq_price yoy_price qoq_volume yoy_volume offplan_pct
  (matrix.filter (fun r => rowMatches r t)).head?

/-- Whether the two-character sequence backslash-`n` occurs in the list. -/
def hasEscN : List Char → Bool
  | [] => false
  | [_] => false
  | c1 :: c2 :: rest => if c1 = '\\' ∧ c2 = 'n' then true else hasEscN (c2 :: rest)

/-- Spec formulation (§4.2 of the design): the fraction of the filtered
transactions lying in calendar quarter `q` whose registration type is
"Off-Plan Properties". -/
def offplanFraction (recs : List Record) (q : ℕ) : ℚ :=
  ((recordsIn recs q).countP (fun r => r.regType == "Off-Plan Properties") : ℚ) /
    ((recordsIn recs q).length : ℚ)

/-- Ten filtered records whose first quarterly bucket has mean price zero:
five transactions of `actual_worth` 0 in quarter 0, five of `actual_worth`
100 in quarter 1. -/
def divZeroRecs : List Record :=
  [⟨some 0, 0, "Existing Properties"⟩, ⟨some 0, 0, "Existing Properties"⟩,
   ⟨some 0, 0, "Existing Properties"⟩, ⟨some 0, 0, "Existing Properties"⟩,
   ⟨some 0, 0, "Existing Properties"⟩,
   ⟨some 1, 100, "Off-Plan Properties"⟩, ⟨some 1, 100, "Existing Properties"⟩,
   ⟨some 1, 100, "Existing Properties"⟩, ⟨some 1, 100, "Existing Properties"⟩,
   ⟨some 1, 100, "Existing Properties"⟩]

/-- Ten records that all fall in the same calendar quarter. -/
def oneQtrRecs : List Record :=
  [⟨some 3, 100, "Existing Properties"⟩, ⟨some 3, 100, "Existing Properties"⟩,
   ⟨some 3, 100, "Existing Properties"⟩, ⟨some 3, 100, "Existing Properties"⟩,
   ⟨some 3, 100, "Existing Properties"⟩, ⟨some 3, 100, "Existing Properties"⟩,
   ⟨some 3, 100, "Existing Properties"⟩, ⟨some 3, 100, "Existing Properties"⟩,
   ⟨some 3, 100, "Existing Properties"⟩, ⟨some 3, 100, "Existing Properties"⟩]

/-- Ten records over two quarters; in the latest quarter one of the five
transactions is off-plan. -/
def twoQtrRecs : List Record :=
  [⟨some 0, 100, "Existing Properties"⟩, ⟨some 0, 100, "Existing Properties"⟩,
   ⟨some 0, 100, "Existing Properties"⟩, ⟨some 0, 100, "Existing Properties"⟩,
   ⟨some 0, 100, "Existing Properties"⟩,
   ⟨some 1, 200, "Off-Plan Properties"⟩, ⟨some 1, 200, "Existing Properties"⟩,
   ⟨some 1, 200, "Existing Properties"⟩, ⟨some 1, 200, "Existing Properties"⟩,
   ⟨some 1, 200, "Existing Properties"⟩]

/-- The five quarterly buckets of the spec's worked example, with constant
volume: mean prices 100, 102, 98, 105, 120. -/
def exampleBuckets : List Bucket :=
  [⟨0, 100, 10⟩, ⟨1, 102, 10⟩, ⟨2, 98, 10⟩, ⟨3, 105, 10⟩, ⟨4, 120, 10⟩]

/-- A one-row pattern matrix keyed on the all-Up, High-offplan tag tuple. -/
def exampleMatrix : List PatternRow :=
  [⟨"Up", "Up", "Up", "Up", "High", "i-inv", "r-inv", "i-eu", "r-eu"⟩]

end Insights

namespace Insights

lemma ilocBack_append (pre suf : List Bucket) (k : ℕ) (_h1 : 1 ≤ k)
    (h2 : k ≤ suf.length) : ilocBack (pre ++ suf) k = ilocBack suf k := by
  unfold ilocBack
  rw [List.length_append, List.get?_append_right (by omega)]
  have he : pre.length + suf.length - k - pre.length = suf.length - k := by omega
  rw [he]

lemma ilocBack_mem (g : List Bucket) (k : ℕ) (h1 : 1 ≤ k) (h2 : k ≤ g.length) :
    ilocBack g k ∈ g := by
  unfold ilocBack
  have hlt : g.length - k < g.length := by omega
  rw [List.get?_eq_get hlt]
  exact List.get_mem g _ hlt

lemma mem_grouped (recs : List Record) (b : Bucket) (hb : b ∈ grouped recs) :
    (recordsIn recs b.quarter).length = b.volume ∧ 1 ≤ b.volume := by
  unfold grouped at hb
  rw [List.mem_filterMap] at hb
  obtain ⟨rb, hrb, hf⟩ := hb
  unfold aggregate at hrb
  rw [List.mem_map] at hrb
  obtain ⟨q, -, rfl⟩ := hrb
  by_cases hz : (recordsIn recs q).length = 0
  · simp [hz] at hf
  · simp only [hz, if_false, if_neg hz] at hf
    obtain rfl := Option.some_injective _ hf
    exact ⟨rfl, Nat.one_le_iff_ne_zero.mpr hz⟩

lemma grouped_twoQtrRecs : grouped twoQtrRecs = [⟨0, 100, 5⟩, ⟨1, 200, 5⟩] := by
  have h0 : recordsIn twoQtrRecs 0 =
      [⟨some 0, 100, "Existing Properties"⟩, ⟨some 0, 100, "Existing Properties"⟩,
       ⟨some 0, 100, "Existing Properties"⟩, ⟨some 0, 100, "Existing Properties"⟩,
       ⟨some 0, 100, "Existing Properties"⟩] := rfl
  have h1 : recordsIn twoQtrRecs 1 =
      [⟨some 1, 200, "Off-Plan Properties"⟩, ⟨some 1, 200, "Existing Properties"⟩,
       ⟨some 1, 200, "Existing Properties"⟩, ⟨some 1, 200, "Existing Properties"⟩,
       ⟨some 1, 200, "Existing Properties"⟩] := rfl
  have hqr : quarterRange twoQtrRecs = [0, 1] := rfl
  simp only [grouped, aggregate, hqr, List.map_cons, List.map_nil, h0, h1]
  norm_num [List.filterMap]

lemma head_filter_decomp {α : Type} (p : α → Bool) :
    ∀ (l : List α) (r : α), (l.filter p).head? = some r →
      p r = true ∧ ∃ l₁ l₂, l = l₁ ++ r :: l₂ ∧ ∀ x ∈ l₁, p x = false := by
  intro l
  induction l with
  | nil => intro r h; simp [List.filter] at h
  | cons a t ih =>
    intro r h
    by_cases hpa : p a = true
    · rw [List.filter_cons_of_pos hpa] at h
      simp only [List.head?_cons, Option.some.injEq] at h
      subst h
      exact ⟨hpa, [], t, rfl, by simp⟩
    · rw [List.filter_cons_of_neg (by simpa using hpa)] at h
      obtain ⟨hp, l₁, l₂, rfl, hall⟩ := ih r h
      refine ⟨hp, a :: l₁, l₂, rfl, ?_⟩
      intro x hx
      rcases List.mem_cons.mp hx with rfl | hx
      · simpa using hpa
      · exact hall x hx

/-- **C4** — With at least 2 but fewer than 5 quarterly buckets, the
year-ago reference falls back to the previous bucket, so the YoY signals
equal the QoQ signals numerically; with two buckets of mean prices 100 and
110, both price deltas are exactly 10. -/
theorem yoy_fallback_spec :
    (∀ (recs : List Record) (g : List Bucket), 2 ≤ g.length → g.length < 5 →
      (computeSignals g recs).yoy_price = (computeSignals g recs).qoq_price ∧
      (computeSignals g recs).yoy_volume = (computeSignals g recs).qoq_volume) ∧
    (computeSignals [⟨0, 100, 7⟩, ⟨1, 110, 8⟩] []).qoq_price = EFloat.finite 10 ∧
    (computeSignals [⟨0, 100, 7⟩, ⟨1, 110, 8⟩] []).yoy_price = EFloat.finite 10 := by
  refine ⟨fun recs g _h2 h5 => ?_, ?_, ?_⟩
  · constructor <;>
      simp only [computeSignals, if_neg (show ¬ 5 ≤ g.length by omega)]
  · norm_num [computeSignals, ilocBack, pctDelta, List.get?]
  · norm_num [computeSignals, ilocBack, pctDelta, List.get?]

/-- C4 witness: at two concrete buckets the YoY price delta coincides with
the QoQ price delta. -/
theorem yoy_fallback_witness :
    (computeSignals [⟨0, 100, 7⟩, ⟨1, 110, 8⟩] []).yoy_price =
      (computeSignals [⟨0, 100, 7⟩, ⟨1, 110, 8⟩] []).qoq_price :=
  (yoy_fallback_spec.1 [] [⟨0, 100, 7⟩, ⟨1, 110, 8⟩] (by norm_num) (by norm_num)).1

/-- **C5** — For sequences of ≥ 2 buckets the QoQ deltas follow the
percentage formula against the previous bucket (`(latest − prev) / prev ×
100`, for price over mean prices and for volume over counts); for ≥ 5
buckets the YoY deltas compare the latest bucket with the bucket four
positions earlier in the sequence; on mean prices 100, 102, 98, 105, 120
the price deltas are 100/7 ≈ 14.29 (tag "Up") and 20 (tag "Up"). -/
theorem delta_formula_spec :
    (∀ (recs : List Record) (pre : List Bucket) (p l : Bucket),
      p.avg_price ≠ 0 →
      (computeSignals (pre ++ [p, l]) recs).qoq_price =
        EFloat.finite ((l.avg_price - p.avg_price) / p.avg_price * 100)) ∧
    (∀ (recs : List Record) (pre : List Bucket) (p l : Bucket),
      (p.volume : ℚ) ≠ 0 →
      (computeSignals (pre ++ [p, l]) recs).qoq_volume =
        EFloat.finite (((l.volume : ℚ) - (p.volume : ℚ)) / (p.volume : ℚ) * 100)) ∧
    (∀ (recs : List Record) (pre : List Bucket) (y b3 b2 p l : Bucket),
      y.avg_price ≠ 0 →
      (computeSignals (pre ++ [y, b3, b2, p, l]) recs).yoy_price =
        EFloat.finite ((l.avg_price - y.avg_price) / y.avg_price * 100)) ∧
    (∀ (recs : List Record) (pre : List Bucket) (y b3 b2 p l : Bucket),
      (y.volume : ℚ) ≠ 0 →
      (computeSignals (pre ++ [y, b3, b2, p, l]) recs).yoy_volume =
        EFloat.finite (((l.volume : ℚ) - (y.volume : ℚ)) / (y.volume : ℚ) * 100)) ∧
    (computeSignals exampleBuckets []).qoq_price = EFloat.finite (100/7) ∧
    classify_change (computeSignals exampleBuckets []).qoq_price = "Up" ∧
    (computeSignals exampleBuckets []).yoy_price = EFloat.finite 20 ∧
    classify_change (computeSignals exampleBuckets []).yoy_price = "Up" := by
  have hil2 : ∀ p l : Bucket, ∀ pre : List Bucket,
      ilocBack (pre ++ [p, l]) 1 = l ∧ ilocBack (pre ++ [p, l]) 2 = p := by
    intro p l pre
    rw [ilocBack_append pre [p, l] 1 (by norm_num) (by norm_num),
      ilocBack_append pre [p, l] 2 (by norm_num) (by norm_num)]
    exact ⟨rfl, rfl⟩
  have hil5 : ∀ y b3 b2 p l : Bucket, ∀ pre : List Bucket,
      ilocBack (pre ++ [y, b3, b2, p, l]) 1 = l ∧
      ilocBack (pre ++ [y, b3, b2, p, l]) 5 = y := by
    intro y b3 b2 p l pre
    rw [ilocBack_append pre [y, b3, b2, p, l] 1 (by norm_num) (by norm_num),
      ilocBack_append pre [y, b3, b2, p, l] 5 (by norm_num) (by norm_num)]
    exact ⟨rfl, rfl⟩
  have hq : (computeSignals exampleBuckets []).qoq_price = EFloat.finite (100/7) := by
    norm_num [computeSignals, ilocBack, pctDelta, List.get?, exampleBuckets]
  have hy : (computeSignals exampleBuckets []).yoy_price = EFloat.finite 20 := by
    norm_num [computeSignals, ilocBack, pctDelta, List.get?, exampleBuckets]
  refine ⟨fun recs pre p l hp => ?_, fun recs pre p l hp => ?_,
    fun recs pre y b3 b2 p l hy0 => ?_, fun recs pre y b3 b2 p l hy0 => ?_,
    hq, ?_, hy, ?_⟩
  · simp only [computeSignals, (hil2 p l pre).1, (hil2 p l pre).2, pctDelta,
      if_neg hp]
  · simp only [computeSignals, (hil2 p l pre).1, (hil2 p l pre).2, pctDelta,
      if_neg hp]
  · have hlen : 5 ≤ (pre ++ [y, b3, b2, p, l]).length := by
      simp [List.length_append]
    simp only [computeSignals, if_pos hlen, (hil5 y b3 b2 p l pre).1,
      (hil5 y b3 b2 p l pre).2, pctDelta, if_neg hy0]
  · have hlen : 5 ≤ (pre ++ [y, b3, b2, p, l]).length := by
      simp [List.length_append]
    simp only [computeSignals, if_pos hlen, (hil5 y b3 b2 p l pre).1,
      (hil5 y b3 b2 p l pre).2, pctDelta, if_neg hy0]
  · rw [hq]
    norm_num [classify_change, efLt]
  · rw [hy]
    norm_num [classify_change, efLt]

/-- C5 witness: at two concrete buckets the QoQ price delta is the
percentage formula evaluated there. -/
theorem delta_formula_witness :
    (computeSignals ([] ++ [⟨0, 100, 7⟩, ⟨1, 110, 8⟩]) []).qoq_price =
      EFloat.finite (((110 : ℚ) - 100) / 100 * 100) :=
  delta_formula_spec.1 [] [] ⟨0, 100, 7⟩ ⟨1, 110, 8⟩ (by norm_num)

/-- **C2** — At `divZeroRecs` the previous quarterly bucket has mean price
zero, yet the analysis completes with no DivisionByZero condition: the QoQ
price delta evaluates to positive infinity and is classified "Up", flowing
silently into the tags. -/
theorem divByZero_produces_inf :
    runAnalysis divZeroRecs =
      AnalysisResult.analyzed (computeSignals (grouped divZeroRecs) divZeroRecs) ∧
    (computeSignals (grouped divZeroRecs) divZeroRecs).qoq_price = EFloat.inf ∧
    classify_change
      ((computeSignals (grouped divZeroRecs) divZeroRecs).qoq_price) = "Up" := by
  have h0 : recordsIn divZeroRecs 0 =
      [⟨some 0, 0, "Existing Properties"⟩, ⟨some 0, 0, "Existing Properties"⟩,
       ⟨some 0, 0, "Existing Properties"⟩, ⟨some 0, 0, "Existing Properties"⟩,
       ⟨some 0, 0, "Existing Properties"⟩] := rfl
  have h1 : recordsIn divZeroRecs 1 =
      [⟨some 1, 100, "Off-Plan Properties"⟩, ⟨some 1, 100, "Existing Properties"⟩,
       ⟨some 1, 100, "Existing Properties"⟩, ⟨some 1, 100, "Existing Properties"⟩,
       ⟨some 1, 100, "Existing Properties"⟩] := rfl
  have hqr : quarterRange divZeroRecs = [0, 1] := rfl
  have hg : grouped divZeroRecs = [⟨0, 0, 5⟩, ⟨1, 100, 5⟩] := by
    simp only [grouped, aggregate, hqr, List.map_cons, List.map_nil, h0, h1]
    norm_num [List.filterMap]
  have hq : (computeSignals (grouped divZeroRecs) divZeroRecs).qoq_price =
      EFloat.inf := by
    rw [hg]
    norm_num [computeSignals, ilocBack, pctDelta, List.get?]
  refine ⟨?_, hq, by rw [hq]; rfl⟩
  unfold runAnalysis
  rw [hg]
  norm_num [divZeroRecs]

/-- **C7** — Fewer than 10 filtered records short-circuits the run to the
insufficient-data outcome before any aggregation result is used; with 10 or
more records but fewer than two quarterly buckets the run stops with the
insufficient-quarters outcome and no signals are computed. -/
theorem insufficient_data_spec :
    (∀ recs : List Record, recs.length < 10 →
      runAnalysis recs = AnalysisResult.insufficientData) ∧
    (∀ recs : List Record, 10 ≤ recs.length → (grouped recs).length < 2 →
      runAnalysis recs = AnalysisResult.insufficientQuarters) := by
  constructor
  · intro recs h
    unfold runAnalysis
    rw [if_pos h]
  · intro recs h10 h2
    unfold runAnalysis
    rw [if_neg (by omega), if_neg (by omega)]

/-- C7 witness: the empty record set reports insufficient data, and ten
records in one single quarter report insufficient quarterly data. -/
theorem insufficient_data_witness :
    runAnalysis [] = AnalysisResult.insufficientData ∧
    runAnalysis oneQtrRecs = AnalysisResult.insufficientQuarters := by
  constructor
  · exact insufficient_data_spec.1 [] (by norm_num)
  · refine insufficient_data_spec.2 oneQtrRecs (by norm_num [oneQtrRecs]) ?_
    have h3 : recordsIn oneQtrRecs 3 = oneQtrRecs := rfl
    have hqr : quarterRange oneQtrRecs = [3] := rfl
    have hg : grouped oneQtrRecs = [⟨3, 100, 10⟩] := by
      simp only [grouped, aggregate, hqr, List.map_cons, List.map_nil, h3]
      norm_num [List.filterMap, oneQtrRecs]
    rw [hg]
    norm_num

/-- **C10** — Every quarterly bucket surviving the aggregation has count at
least 1 (its count equals the number of records in its quarter, and its mean
price is a defined rational by construction); a raw quarter emitted by the
calendar grouper has an undefined (NaN) mean exactly when it holds no
records, and exactly those quarters are dropped; hence the previous and
year-ago reference buckets always have strictly positive counts. -/
theorem grouped_positive_spec :
    (∀ (recs : List Record) (b : Bucket), b ∈ grouped recs →
      1 ≤ b.volume ∧ (recordsIn recs b.quarter).length = b.volume) ∧
    (∀ (recs : List Record) (rb : RawBucket), rb ∈ aggregate recs →
      (rb.avg_price = none ↔ rb.volume = 0)) ∧
    (∀ recs : List Record, 2 ≤ (grouped recs).length →
      1 ≤ (ilocBack (grouped recs) 2).volume ∧
      (5 ≤ (grouped recs).length → 1 ≤ (ilocBack (grouped recs) 5).volume)) := by
  refine ⟨fun recs b hb =>
    ⟨(mem_grouped recs b hb).2, (mem_grouped recs b hb).1⟩, ?_, ?_⟩
  · intro recs rb hrb
    unfold aggregate at hrb
    rw [List.mem_map] at hrb
    obtain ⟨q, -, rfl⟩ := hrb
    by_cases hz : (recordsIn recs q).length = 0
    · simp [hz]
    · simp [hz]
  · intro recs h2
    refine ⟨(mem_grouped recs _ (ilocBack_mem _ 2 (by norm_num) h2)).2, ?_⟩
    intro h5
    exact (mem_grouped recs _ (ilocBack_mem _ 5 (by norm_num) h5)).2

/-- C10 witness: at ten concrete records over two quarters, the previous
bucket has strictly positive count. -/
theorem grouped_positive_witness :
    1 ≤ (ilocBack (grouped twoQtrRecs) 2).volume := by
  refine (grouped_positive_spec.2.2 twoQtrRecs ?_).1
  rw [grouped_twoQtrRecs]
  norm_num

/-- **C8** — Whenever the analysis produces signals, `offplan_pct` is the
fraction of the raw filtered records, re-filtered to the latest bucket's
calendar quarter, whose registration type is "Off-Plan Properties"; that
latest quarter always holds at least one record. -/
theorem offplan_pct_spec :
    ∀ (recs : List Record) (s : Signals),
      runAnalysis recs = AnalysisResult.analyzed s →
      recordsIn recs (ilocBack (grouped recs) 1).quarter ≠ [] ∧
      s.offplan_pct =
        EFloat.finite (offplanFraction recs (ilocBack (grouped recs) 1).quarter) := by
  intro recs s hrun
  by_cases hlen : recs.length < 10
  · simp only [runAnalysis, if_pos hlen] at hrun
    exact absurd hrun (by simp)
  by_cases h2 : 2 ≤ (grouped recs).length
  swap
  · simp only [runAnalysis, if_neg hlen, if_neg h2] at hrun
    exact absurd hrun (by simp)
  simp only [runAnalysis, if_neg hlen, if_pos h2,
    AnalysisResult.analyzed.injEq] at hrun
  subst hrun
  have hmem := ilocBack_mem (grouped recs) 1 (by norm_num) (by omega)
  have hmg := mem_grouped recs _ hmem
  have hne : (recordsIn recs (ilocBack (grouped recs) 1).quarter).length ≠ 0 := by
    omega
  refine ⟨fun hnil => hne (by rw [hnil]; rfl), ?_⟩
  show offplanPct recs (ilocBack (grouped recs) 1).quarter = _
  simp only [offplanPct, offplanFraction, if_neg hne]

/-- C8 witness: at ten concrete records over two quarters, one off-plan
transaction among the five of the latest quarter gives `offplan_pct`
equal to the latest-quarter off-plan fraction. -/
theorem offplan_pct_witness :
    recordsIn twoQtrRecs (ilocBack (grouped twoQtrRecs) 1).quarter ≠ [] ∧
    (computeSignals (grouped twoQtrRecs) twoQtrRecs).offplan_pct =
      EFloat.finite
        (offplanFraction twoQtrRecs (ilocBack (grouped twoQtrRecs) 1).quarter) := by
  refine offplan_pct_spec twoQtrRecs _ ?_
  unfold runAnalysis
  rw [grouped_twoQtrRecs]
  norm_num [twoQtrRecs]

/-- **C3** — The pattern lookup classifies the five numeric signals and
returns the first row of the table whose five tag columns are all exactly
string-equal to the computed tags (simultaneously, AND); every row before
the returned one fails the mask, and the lookup returns `none` (no match,
not an error) exactly when no row of the table matches. -/
theorem get_pattern_insight_spec :
    ∀ (matrix : List PatternRow) (qp yp qv yv op : EFloat),
      (∀ r : PatternRow, get_pattern_insight matrix qp yp qv yv op = some r →
        (r.qoqPrice = classify_change qp ∧ r.yoyPrice = classify_change yp ∧
         r.qoqVolume = classify_change qv ∧ r.yoyVol = classify_change yv ∧
         r.offplanLevel = classify_offplan op) ∧
        ∃ l₁ l₂, matrix = l₁ ++ r :: l₂ ∧
          ∀ x ∈ l₁, rowMatches x (tagsOf qp yp qv yv op) = false) ∧
      (get_pattern_insight matrix qp yp qv yv op = none ↔
        ∀ r ∈ matrix, rowMatches r (tagsOf qp yp qv yv op) = false) := by
  intro matrix qp yp qv yv op
  constructor
  · intro r hr
    obtain ⟨hp, l₁, l₂, heq, hall⟩ :=
      head_filter_decomp (fun x => rowMatches x (tagsOf qp yp qv yv op)) matrix r hr
    refine ⟨?_, l₁, l₂, heq, hall⟩
    simpa [rowMatches, tagsOf, Bool.and_eq_true, beq_iff_eq, and_assoc] using hp
  · simp only [get_pattern_insight, List.head?_eq_none_iff, List.filter_eq_nil]
    constructor
    · intro h r hrm
      simpa using h r hrm
    · intro h r hrm
      simpa using h r hrm

/-- C3 witness: a one-row matrix keyed Up/Up/Up/Up/High is returned for
numeric signals 10, 10, 10, 10 and off-plan share 1, with all five tag
fields equal to the computed tags and nothing before it. -/
theorem get_pattern_insight_witness :
    ((⟨"Up", "Up", "Up", "Up", "High", "i-inv", "r-inv", "i-eu", "r-eu"⟩ :
        PatternRow).qoqPrice = classify_change (EFloat.finite 10) ∧
     (⟨"Up", "Up", "Up", "Up", "High", "i-inv", "r-inv", "i-eu", "r-eu"⟩ :
        PatternRow).yoyPrice = classify_change (EFloat.finite 10) ∧
     (⟨"Up", "Up", "Up", "Up", "High", "i-inv", "r-inv", "i-eu", "r-eu"⟩ :
        PatternRow).qoqVolume = classify_change (EFloat.finite 10) ∧
     (⟨"Up", "Up", "Up", "Up", "High", "i-inv", "r-inv", "i-eu", "r-eu"⟩ :
        PatternRow).yoyVol = classify_change (EFloat.finite 10) ∧
     (⟨"Up", "Up", "Up", "Up", "High", "i-inv", "r-inv", "i-eu", "r-eu"⟩ :
        PatternRow).offplanLevel = classify_offplan (EFloat.finite 1)) ∧
    ∃ l₁ l₂, exampleMatrix = l₁ ++
      (⟨"Up", "Up", "Up", "Up", "High", "i-inv", "r-inv", "i-eu", "r-eu"⟩ :
        PatternRow) :: l₂ ∧
      ∀ x ∈ l₁, rowMatches x (tagsOf (EFloat.finite 10) (EFloat.finite 10)
        (EFloat.finite 10) (EFloat.finite 10) (EFloat.finite 1)) = false := by
  refine (get_pattern_insight_spec exampleMatrix
    (EFloat.finite 10) (EFloat.finite 10) (EFloat.finite 10) (EFloat.finite 10)
    (EFloat.finite 1)).1 _ ?_
  norm_num [get_pattern_insight, tagsOf, classify_change, classify_offplan,
    efLt, rowMatches, exampleMatrix, List.filter]

/-- **C9** — Loading the pattern matrix rewrites each row in place by
unescaping the four free-text columns, the five tag columns untouched; the
unescaping replaces every occurrence of the literal two-character sequence
backslash-`n` by a newline character and leaves every other character
unchanged (a sequence-free text maps to itself, and the text before the
first occurrence passes through unchanged around the substituted
newline). -/
theorem unescape_newlines_spec :
    (∀ (raw : List PatternRow) (i : ℕ) (r : PatternRow), raw.get? i = some r →
      (load_pattern_matrix raw).get? i = some
        { r with
          insightInvestor := unescapeStr r.insightInvestor
          recInvestor := unescapeStr r.recInvestor
          insightEndUser := unescapeStr r.insightEndUser
          recEndUser := unescapeStr r.recEndUser }) ∧
    (∀ s : List Char, hasEscN s = false → unescapeNL s = s) ∧
    (∀ a b : List Char, hasEscN a = false →
      unescapeNL (a ++ '\\' :: 'n' :: b) = a ++ '\n' :: unescapeNL b) := by
  refine ⟨?_, ?_, ?_⟩
  · intro raw i r h
    simp only [load_pattern_matrix, List.get?_map, h, Option.map_some']
  · intro s
    induction s with
    | nil => intro _h; rfl
    | cons c t ih =>
      cases t with
      | nil => intro _h; rfl
      | cons c2 t2 =>
        intro h
        by_cases hc : c = '\\' ∧ c2 = 'n'
        · simp [hasEscN, hc] at h
        · simp only [hasEscN, if_neg hc] at h
          simp only [unescapeNL, if_neg hc]
          rw [ih h]
  · intro a
    induction a with
    | nil =>
      intro b _h
      simp [unescapeNL]
    | cons c a' ih =>
      intro b h
      cases a' with
      | nil =>
        have hcond : ¬ (c = '\\' ∧ '\\' = 'n') := by
          rintro ⟨-, h2⟩
          exact absurd h2 (by decide)
        simp [unescapeNL, hcond]
      | cons c2 a'' =>
        by_cases hc : c = '\\' ∧ c2 = 'n'
        · simp [hasEscN, hc] at h
        · have h' : hasEscN (c2 :: a'') = false := by
            simp only [hasEscN, if_neg hc] at h
            exact h
          have hstep := ih b h'
          simp only [List.cons_append] at hstep ⊢
          simp only [unescapeNL, if_neg hc]
          rw [hstep]

/-- C9 witness: unescaping the four-character text `a`, backslash, `n`, `b`
yields `a`, newline, `b`. -/
theorem unescape_newlines_witness :
    unescapeNL (['a'] ++ '\\' :: 'n' :: ['b']) = ['a'] ++ '\n' :: unescapeNL ['b'] ∧
    unescapeNL ['a', '\\', 'n', 'b'] = ['a', '\n', 'b'] := by
  have h := unescape_newlines_spec.2.2 ['a'] ['b'] rfl
  exact ⟨h, by simpa [unescapeNL] using h⟩

end Insights

namespace Insights

/-- **C1** — For every numeric `x`: `classify_change x = "Up" ↔ x > 5`,
`= "Down" ↔ x < -5`, `= "Flat" ↔ -5 ≤ x ≤ 5`; and at the boundary,
`classify_change 5 = "Flat"`, `classify_change (-5) = "Flat"`,
`classify_change 5.0001 = "Up"`. -/
theorem classify_change_spec :
    (∀ x : ℚ,
      (classify_change (EFloat.finite x) = "Up" ↔ 5 < x) ∧
      (classify_change (EFloat.finite x) = "Down" ↔ x < -5) ∧
      (classify_change (EFloat.finite x) = "Flat" ↔ -5 ≤ x ∧ x ≤ 5)) ∧
    classify_change (EFloat.finite 5) = "Flat" ∧
    classify_change (EFloat.finite (-5)) = "Flat" ∧
    classify_change (EFloat.finite (50001/10000)) = "Up" := by
  have H : ∀ x : ℚ,
      (classify_change (EFloat.finite x) = "Up" ↔ 5 < x) ∧
      (classify_change (EFloat.finite x) = "Down" ↔ x < -5) ∧
      (classify_change (EFloat.finite x) = "Flat" ↔ -5 ≤ x ∧ x ≤ 5) := ?_
  · exact ⟨H, (H 5).2.2.mpr (by norm_num), (H (-5)).2.2.mpr (by norm_num),
      (H (50001/10000)).1.mpr (by norm_num)⟩
  intro x
  simp only [classify_change, efLt, decide_eq_true_eq]
  split_ifs with h1 h2
  · exact ⟨⟨fun _ => h1, fun _ => rfl⟩,
      ⟨fun h => absurd h (by decide), fun h => absurd (h.trans (by norm_num)) (not_lt.mpr h1.le)⟩,
      ⟨fun h => absurd h (by decide), fun h => absurd h1 (not_lt.mpr h.2)⟩⟩
  · exact ⟨⟨fun h => absurd h (by decide), fun h => absurd h h1⟩,
      ⟨fun _ => h2, fun _ => rfl⟩,
      ⟨fun h => absurd h (by decide), fun h => absurd h2 (not_lt.mpr h.1)⟩⟩
  · exact ⟨⟨fun h => absurd h (by decide), fun h => absurd h h1⟩,
      ⟨fun h => absurd h (by decide), fun h => absurd h h2⟩,
      ⟨fun _ => ⟨not_lt.mp h2, not_lt.mp h1⟩, fun _ => rfl⟩⟩

/-- **C6** — For every fraction `p`: `classify_offplan p = "High" ↔ p > 0.5`,
`= "Medium" ↔ 0.2 < p ≤ 0.5`, `= "Low" ↔ p ≤ 0.2`; and
`classify_offplan 0.5 = "Medium"`, `classify_offplan 0.2 = "Low"`,
`classify_offplan 0.50001 = "High"`. -/
theorem classify_offplan_spec :
    (∀ p : ℚ,
      (classify_offplan (EFloat.finite p) = "High" ↔ 1/2 < p) ∧
      (classify_offplan (EFloat.finite p) = "Medium" ↔ 1/5 < p ∧ p ≤ 1/2) ∧
      (classify_offplan (EFloat.finite p) = "Low" ↔ p ≤ 1/5)) ∧
    classify_offplan (EFloat.finite (1/2)) = "Medium" ∧
    classify_offplan (EFloat.finite (1/5)) = "Low" ∧
    classify_offplan (EFloat.finite (50001/100000)) = "High" := by
  have H : ∀ p : ℚ,
      (classify_offplan (EFloat.finite p) = "High" ↔ 1/2 < p) ∧
      (classify_offplan (EFloat.finite p) = "Medium" ↔ 1/5 < p ∧ p ≤ 1/2) ∧
      (classify_offplan (EFloat.finite p) = "Low" ↔ p ≤ 1/5) := ?_
  · exact ⟨H, (H (1/2)).2.1.mpr (by norm_num), (H (1/5)).2.2.mpr (by norm_num),
      (H (50001/100000)).1.mpr (by norm_num)⟩
  intro p
  simp only [classify_offplan, efLt, decide_eq_true_eq]
  split_ifs with h1 h2
  · exact ⟨⟨fun _ => h1, fun _ => rfl⟩,
      ⟨fun h => absurd h (by decide), fun h => absurd h1 (not_lt.mpr h.2)⟩,
      ⟨fun h => absurd h (by decide), fun h => absurd h1 (not_lt.mpr (h.trans (by norm_num)))⟩⟩
  · exact ⟨⟨fun h => absurd h (by decide), fun h => absurd h h1⟩,
      ⟨fun _ => ⟨h2, not_lt.mp h1⟩, fun _ => rfl⟩,
      ⟨fun h => absurd h (by decide), fun h => absurd h2 (not_lt.mpr h)⟩⟩
  · exact ⟨⟨fun h => absurd h (by decide), fun h => absurd h h1⟩,
      ⟨fun h => absurd h (by decide), fun h => absurd h.1 h2⟩,
      ⟨fun _ => not_lt.mp h2, fun _ => rfl⟩⟩

end Insights
